import Mathlib

/-!
Shallow embedding of `hub_utils/utilities.py` (class `Utilities`), the single
source file of the repository.  Python strings are embedded as `String` or
`List Char`, Python dicts that are used as ordered key/value registries are
embedded as association lists (`List (key × value)`) with first-match lookup
and Python's insert-or-replace assignment (`dictSet`), the file system is
embedded as a function from paths to optional file contents, and every
interactive prompt is embedded by passing the operator's answer (or the
recorded default, in auto-accept mode) as an explicit argument, mirroring
`Utilities._prompt`.  Fallible Python operations (KeyError, IndexError) are
embedded with `Option`, and a raised exception with `Except`.
-/

namespace HubUtils

/-- Model of `Utilities._prompt` for a boolean question: in auto-accept mode
the recorded default is returned unconditionally, otherwise the operator's
typed answer is returned. -/
def promptBool (auto_accept : Bool) (default_val : Bool) (input : Bool) : Bool :=
  if auto_accept then default_val else input

/-- Python truthiness of an optional boolean (`None` is falsy); used to model
call sites such as `if variant_exists and ...` that consume the value
returned by `_handle_default_variant` (which returns `True` or falls off the
end returning `None`). -/
def truthy : Option Bool → Bool
  | none => false
  | some b => b

/-- Python dict assignment `d[k] = v` on an association list: replace the
binding when the key is present (keeping its position), append a new binding
otherwise. -/
def dictSet {α : Type} (l : List (String × α)) (k : String) (v : α) :
    List (String × α) :=
  if (l.lookup k).isSome then
    l.map (fun p => if p.1 = k then (k, v) else p)
  else
    l ++ [(k, v)]

/-- Model of Python `str.split(sep)` for a single-character separator, on the
character list of the string: splitting the empty string yields one empty
chunk, and each occurrence of the separator starts a new chunk. -/
def splitOnChar (c : Char) : List Char → List (List Char)
  | [] => [[]]
  | x :: xs =>
    match splitOnChar c xs with
    | [] => [[]]
    | r :: rs => if x = c then [] :: r :: rs else (x :: r) :: rs

/-- Model of Python's substring test `sub in s` on character lists. -/
def strIn (sub : List Char) : List Char → Bool
  | [] => sub.isEmpty
  | x :: xs => sub.isPrefixOf (x :: xs) || strIn sub xs

/-- One setting record as assembled by `_build_settings`: the dict
`{'name': ..., 'label': ..., 'description': ...}` with the `kind` key present
(`some`) only when it was added by `if kind != 'string'`. -/
structure SettingRecord where
  name : String
  label : String
  description : String
  kind : Option String
deriving DecidableEq

/-- Operator-confirmed answers to the four per-setting prompts issued by
`_build_settings` (label, kind, description, required). -/
structure SettingInput where
  label : String
  kind : String
  description : String
  required : Bool
deriving DecidableEq

/-- One maintainer record as written by `_handle_maintainer`:
`{"label": ..., "url": ..., "name": ...}`. -/
structure Maintainer where
  label : String
  url : String
  name : String
deriving DecidableEq

/-- A plugin definition as assembled by `_boilerplate_definition`: exactly the
keys of the Python dict, with `executable` optional (it is only added when
truthy). -/
structure PluginDef where
  name : String
  variant : String
  label : String
  logo_url : String
  capabilities : List String
  description : String
  domain_url : String
  keywords : List String
  maintenance_status : String
  «namespace» : String
  next_steps : String
  pip_url : String
  repo : String
  settings : List SettingRecord
  settings_group_validation : List (List String)
  settings_preamble : String
  usage : String
  executable : Option String
deriving DecidableEq

/-- Outcome reported by `_write_definition`: `created` corresponds to the
`print('Definition: Updated')` branch taken when no file existed, `skipped` to
`print('Definition: Skipping')` when overwrite was declined, and `overwritten`
to the confirmed-overwrite branch (which prints nothing). -/
inductive DefReport where
  | created
  | overwritten
  | skipped
deriving DecidableEq

/-- Model of `Utilities._get_plugin_name`: `repo_url.split("/")[-1]`.  The
result of `split` is always non-empty, so the `[-1]` index never fails. -/
def _get_plugin_name (repo_url : String) : String :=
  String.mk ((splitOnChar '/' repo_url.data).getLastD [])

/-- Model of `Utilities._get_plugin_variant`:
`repo_url.split("/")[-2].lower()`.  The `[-2]` index raises IndexError when
the split has fewer than two chunks, hence the `Option`. -/
def _get_plugin_variant (repo_url : String) : Option String :=
  ((splitOnChar '/' repo_url.data).reverse.drop 1).head?.map
    (fun l => String.mk (l.map Char.toLower))

/-- Model of `Utilities.get_plugin_type`: raises (`Except.error`) when the
name contains both markers, classifies when exactly one is present, and
returns no classification (Python falls off the end returning `None`) when
neither is present. -/
def get_plugin_type (plugin_name : String) : Except String (Option String) :=
  if strIn "tap-".data plugin_name.data && strIn "target-".data plugin_name.data then
    Except.error ("Type Unknown: " ++ plugin_name)
  else if strIn "tap-".data plugin_name.data then
    Except.ok (some "extractors")
  else if strIn "target-".data plugin_name.data then
    Except.ok (some "loaders")
  else
    Except.ok none

/-- Model of `"/".join(repo_url.split("/")[:-1])` from `_handle_maintainer`:
the repository URL with its last path segment stripped. -/
def stripLastSegment (repo_url : String) : String :=
  String.mk (List.intercalate ['/'] ((splitOnChar '/' repo_url.data).dropLast))

/-- Model of Python string comparison (lexicographic by code point) on
character lists, used by `sorted(...)` in `_handle_maintainer`. -/
def charListLe : List Char → List Char → Bool
  | [], _ => true
  | _ :: _, [] => false
  | a :: as, b :: bs =>
    if a.toNat < b.toNat then true
    else if b.toNat < a.toNat then false
    else charListLe as bs

/-- Python string `<=` on the embedded strings. -/
def pyStrLe (a b : String) : Bool := charListLe a.data b.data

/-- Comparison used to embed `sorted(updated_maintainers.items())`: items are
compared by key (keys are unique in a dict, so the value is never reached). -/
def maintainerLe (p q : String × Maintainer) : Prop := pyStrLe p.1 q.1 = true

instance : DecidableRel maintainerLe := fun p q => by
  unfold maintainerLe
  infer_instance

instance : IsTotal (String × Maintainer) maintainerLe := by
  constructor
  intro p q
  show charListLe p.1.data q.1.data = true ∨ charListLe q.1.data p.1.data = true
  generalize p.1.data = a
  generalize q.1.data = b
  induction a generalizing b with
  | nil => left; rfl
  | cons x xs ih =>
    cases b with
    | nil => right; rfl
    | cons y ys =>
      simp only [charListLe]
      by_cases h1 : x.toNat < y.toNat
      · left; simp [h1]
      · by_cases h2 : y.toNat < x.toNat
        · right; simp [h2]
        · rcases ih ys with h | h
          · left; simp [h1, h2, h]
          · right; simp [h1, h2, h]

instance : IsTrans (String × Maintainer) maintainerLe := by
  constructor
  intro p q r
  show charListLe p.1.data q.1.data = true → charListLe q.1.data r.1.data = true →
    charListLe p.1.data r.1.data = true
  generalize p.1.data = a
  generalize q.1.data = b
  generalize r.1.data = c
  induction a generalizing b c with
  | nil => intro _ _; rfl
  | cons x xs ih =>
    intro hab hbc
    cases b with
    | nil => simp [charListLe] at hab
    | cons y ys =>
      cases c with
      | nil => simp [charListLe] at hbc
      | cons z zs =>
        simp only [charListLe] at hab hbc ⊢
        split_ifs at hab hbc ⊢ <;>
          first
          | rfl
          | omega
          | exact ih ys zs hab hbc

/-- The definition file tree, keyed by the path components
`(plugin_type, name, variant)` that `_write_definition` joins into
`{hub_root}/_data/meltano/{plugin_type}/{name}/{variant}.yml`; the content of
a written file is the dumped definition. -/
def DefStore : Type := String × String × String → Option PluginDef

/-- Model of `Utilities._write_definition`: if no file exists at the target
path the definition is written and the `Definition: Updated` branch is taken;
otherwise the operator is asked `Plugin definition already exists, overwrite
it?` with recorded default `False`, the file is rewritten only on an explicit
`True` answer, and the `Definition: Skipping` branch is taken on decline. -/
def _write_definition (files : DefStore) (definition : PluginDef)
    (plugin_type : String) (auto_accept overwriteInput : Bool) :
    DefStore × DefReport :=
  let key := (plugin_type, definition.name, definition.variant)
  match files key with
  | none =>
    (fun k => if k = key then some definition else files k, DefReport.created)
  | some _ =>
    if promptBool auto_accept false overwriteInput then
      (fun k => if k = key then some definition else files k,
        DefReport.overwritten)
    else
      (files, DefReport.skipped)

/-- Model of `Utilities._merge_definitions`: copy the existing definition and
overlay exactly the five fields passed in. -/
def _merge_definitions (existing_def : PluginDef) (settings : List SettingRecord)
    (keywords : List String) (m_status : String) (caps : List String)
    (sgv : List (List String)) : PluginDef :=
  { existing_def with
      settings := settings
      keywords := keywords
      maintenance_status := m_status
      capabilities := caps
      settings_group_validation := sgv }

/-- Model of `Utilities._handle_maintainer`: when the variant key is absent a
new record `{label: variant, url: repo url minus last segment, name: variant}`
is assigned and the whole registry is rewritten as
`dict(OrderedDict(sorted(items)))`; when the key is present nothing is
written (`Maintainer: Skipping`). -/
def _handle_maintainer (maintainers : List (String × Maintainer))
    (plugin_variant : String) (repo_url : String) : List (String × Maintainer) :=
  if (maintainers.lookup plugin_variant).isSome then
    maintainers
  else
    List.insertionSort maintainerLe
      (dictSet maintainers plugin_variant
        { label := plugin_variant
          url := stripLastSegment repo_url
          name := plugin_variant })

/-- Model of `Utilities._update_variant_file`: assign
`plugin_type_defaults[plugin_name] = plugin_variant`, reinstall that mapping
under `defaults[plugin_type]` and rewrite the registry. -/
def _update_variant_file (plugin_type_defaults : List (String × String))
    (plugin_name plugin_variant : String)
    (defaults : List (String × List (String × String))) (plugin_type : String) :
    List (String × List (String × String)) :=
  dictSet defaults plugin_type (dictSet plugin_type_defaults plugin_name plugin_variant)

/-- Model of `Utilities._handle_default_variant`.  `defaults[plugin_type]`
raises KeyError when the type key is absent (outer `none`).  When the plugin
name has no recorded default the variant file is updated unconditionally and
the function falls off the end returning Python `None` (inner `none`); when a
default exists the operator is asked to overwrite (recorded default `False`),
the file is updated only on confirmation, and `True` is returned. -/
def _handle_default_variant (defaults : List (String × List (String × String)))
    (plugin_name plugin_variant plugin_type : String)
    (auto_accept overwriteInput : Bool) :
    Option (List (String × List (String × String)) × Option Bool) :=
  match defaults.lookup plugin_type with
  | none => none
  | some plugin_type_defaults =>
    if (plugin_type_defaults.lookup plugin_name).isSome then
      let overwrite := promptBool auto_accept false overwriteInput
      if overwrite then
        some (_update_variant_file plugin_type_defaults plugin_name
          plugin_variant defaults plugin_type, some true)
      else
        some (defaults, some true)
    else
      some (_update_variant_file plugin_type_defaults plugin_name
        plugin_variant defaults plugin_type, none)

/-- Lookup of the default variant recorded for one (type, name) pair. -/
def lookup2 (defaults : List (String × List (String × String)))
    (ty nm : String) : Option String :=
  (defaults.lookup ty).bind (fun m => m.lookup nm)

/-- Model of the body of the `for setting in setting_list` loop of
`_build_settings`, with the four per-setting prompt answers supplied by
`resp`: returns the assembled setting records in order and the names that
were confirmed required. -/
def buildSettingsList (resp : String → SettingInput) :
    List String → List SettingRecord × List String
  | [] => ([], [])
  | setting :: rest =>
    let r := resp setting
    let setting_details : SettingRecord :=
      { name := setting
        label := r.label
        description := r.description
        kind := if r.kind ≠ "string" then some r.kind else none }
    let p := buildSettingsList resp rest
    (setting_details :: p.1, if r.required then setting :: p.2 else p.2)

/-- Model of `Utilities._build_settings`: the loop above, with the required
names wrapped as the single validation group
`return settings, [settings_group_validation]`. -/
def _build_settings (resp : String → SettingInput) (setting_list : List String) :
    List SettingRecord × List (List String) :=
  ((buildSettingsList resp setting_list).1,
    [(buildSettingsList resp setting_list).2])

/-- The single-quote and double-quote characters (written via code points to
keep them out of the source text). -/
def pyQuote : Char := Char.ofNat 39

/-- Double-quote character. -/
def pyDQuote : Char := Char.ofNat 34

/-- Escaping of one character inside a Python string repr with the given
surrounding quote character. -/
def pyEscapeChar (quote c : Char) : List Char :=
  if c = '\\' then ['\\', '\\']
  else if c = quote then ['\\', quote]
  else [c]

/-- Model of Python `repr` of a (printable) string: single-quoted, switching
to double quotes when the text contains a single quote but no double quote,
escaping backslashes and the surrounding quote. -/
def pyReprStr (s : String) : String :=
  if s.data.contains pyQuote && !(s.data.contains pyDQuote) then
    String.mk (pyDQuote :: (s.data.flatMap (pyEscapeChar pyDQuote)) ++ [pyDQuote])
  else
    String.mk (pyQuote :: (s.data.flatMap (pyEscapeChar pyQuote)) ++ [pyQuote])

/-- Model of Python `str(...)` applied to a list of strings, as compared
against the prompt answer in `_compile_settings`. -/
def pyStrList (l : List String) : String :=
  "[" ++ String.intercalate ", " (l.map pyReprStr) ++ "]"

/-- Model of the `while` loop of `_compile_settings`.  One input token per
prompt: `none` is an empty line and `some s` a typed answer `s`.  When the
accumulated list is non-empty it is offered as the prompt default, so an
empty line returns the list object itself and `str(setting) == str(settings)`
holds; when it is empty (falsy) no default is offered and `typer` keeps
prompting on empty lines.  A typed answer breaks the loop exactly when it
equals `str(settings)`, and is appended otherwise.  The loop blocks waiting
for more input when the tokens run out (`none` result).  On break the
function returns `list(set(settings))` (modelled up to element order by
`dedup`) together with the final contents of the `settings` list object,
which is the caller-supplied `seed` object mutated in place. -/
def compileSettingsLoop :
    List String → List (Option String) → Option (List String × List String)
  | _, [] => none
  | settings, none :: rest =>
    if settings.isEmpty then compileSettingsLoop settings rest
    else some (settings.dedup, settings)
  | settings, some s :: rest =>
    if s = pyStrList settings then some (settings.dedup, settings)
    else compileSettingsLoop (settings ++ [s]) rest

/-- Model of `Utilities._compile_settings`: in auto-accept mode the loop body
never runs; otherwise the loop above. -/
def _compile_settings (auto_accept : Bool) (seed : List String)
    (inputs : List (Option String)) : Option (List String × List String) :=
  if auto_accept then some (seed.dedup, seed) else compileSettingsLoop seed inputs

/-- Model of `Utilities.delete_rows`: copy `csv_path` to `edit_path`, dropping
every row whose first column is in `repo_urls_to_delete`. -/
def delete_rows (repo_urls_to_delete : List String)
    (csvRows : List (List String)) : List (List String) :=
  csvRows.filter (fun row => !(decide (row.headD "" ∈ repo_urls_to_delete)))

/-- Model of the `for index, row in enumerate(csv_list)` loop of `add_bulk`
from its second iteration on (the header iteration only prints and
continues).  Each iteration consumes one confirmation answer for the
`Add {repo_url} ...?` prompt; a confirmed row is processed by `self.add`,
which never writes the edit file, and in either case the row's URL is
appended to `repo_urls_to_delete` and `delete_rows` rewrites the edit file
from the original CSV.  The returned list is the edit-file content after
each data-row iteration. -/
def bulkAux (csvList : List (List String)) :
    List String → List (List String) → List Bool → List (List (List String))
  | _, [], _ => []
  | toDelete, row :: rest, confirms =>
    let _do_add := promptBool false true (confirms.headD true)
    let toDelete2 := toDelete ++ [row.headD ""]
    delete_rows toDelete2 csvList :: bulkAux csvList toDelete2 rest (confirms.drop 1)

/-- Model of `Utilities.add_bulk` restricted to its effect on the edit file:
the trace of edit-file contents written after each data row. -/
def add_bulk (csvList : List (List String)) (confirms : List Bool) :
    List (List (List String)) :=
  bulkAux csvList [] (csvList.drop 1) confirms

/-- A concrete plugin definition used to instantiate the theorems below. -/
def sampleDef : PluginDef :=
  { name := "tap-foo"
    variant := "meltanolabs"
    label := "Foo"
    logo_url := "/assets/logos/extractors/foo.png"
    capabilities := ["catalog", "discover", "state"]
    description := ""
    domain_url := ""
    keywords := ["meltano_sdk"]
    maintenance_status := "active"
    «namespace» := "tap_foo"
    next_steps := ""
    pip_url := "git+https://github.com/MeltanoLabs/tap-foo.git"
    repo := "https://github.com/MeltanoLabs/tap-foo"
    settings := []
    settings_group_validation := [[]]
    settings_preamble := ""
    usage := ""
    executable := some "tap-foo" }

/-- Concrete prompt answers used to instantiate the settings-builder
statements: `host` is a required string setting, everything else an
optional integer setting. -/
def sampleResp : String → SettingInput := fun s =>
  if s = "host" then
    { label := "Host", kind := "string", description := "d", required := true }
  else
    { label := "Port", kind := "integer", description := "d", required := false }

theorem lookup_map_replace_self {α : Type} (k : String) (v : α) :
    ∀ l : List (String × α), (l.lookup k).isSome →
      (l.map (fun p => if p.1 = k then (k, v) else p)).lookup k = some v := by
  intro l
  induction l with
  | nil => intro h; simp [List.lookup] at h
  | cons p rest ih =>
    obtain ⟨a, b⟩ := p
    intro h
    by_cases hp : a = k
    · subst hp
      rw [List.map_cons, if_pos rfl]
      simp [List.lookup]
    · have hbeq : (k == a) = false := by
        simp [beq_iff_eq]; exact fun he => hp he.symm
      simp only [List.map_cons, if_neg hp]
      simp only [List.lookup, hbeq]
      apply ih
      simpa [List.lookup, hbeq] using h

theorem lookup_map_replace_ne {α : Type} (k k' : String) (v : α) (hne : k' ≠ k) :
    ∀ l : List (String × α),
      (l.map (fun p => if p.1 = k then (k, v) else p)).lookup k' = l.lookup k' := by
  intro l
  induction l with
  | nil => simp
  | cons p rest ih =>
    obtain ⟨a, b⟩ := p
    by_cases hp : a = k
    · subst hp
      have hbeq : (k' == a) = false := by simp [beq_iff_eq, hne]
      rw [List.map_cons, if_pos rfl]
      simp [List.lookup, hbeq, ih]
    · simp only [List.map_cons, if_neg hp]
      cases hkp : (k' == a) with
      | true => simp [List.lookup, hkp]
      | false => simp [List.lookup, hkp, ih]

theorem lookup_append_single_self {α : Type} (k : String) (v : α) :
    ∀ l : List (String × α), l.lookup k = none →
      (l ++ [(k, v)]).lookup k = some v := by
  intro l
  induction l with
  | nil => intro _; simp [List.lookup]
  | cons p rest ih =>
    obtain ⟨a, b⟩ := p
    intro h
    cases hkp : (k == a) with
    | true => simp [List.lookup, hkp] at h
    | false =>
      simp only [List.cons_append, List.lookup, hkp]
      apply ih
      simpa [List.lookup, hkp] using h

theorem lookup_append_single_ne {α : Type} (k k' : String) (v : α) (hne : k' ≠ k) :
    ∀ l : List (String × α), (l ++ [(k, v)]).lookup k' = l.lookup k' := by
  intro l
  induction l with
  | nil =>
    have hbeq : (k' == k) = false := by simp [beq_iff_eq, hne]
    simp [List.lookup, hbeq]
  | cons p rest ih =>
    obtain ⟨a, b⟩ := p
    cases hkp : (k' == a) with
    | true => simp [List.lookup, hkp]
    | false => simp [List.lookup, hkp, ih]

theorem lookup_dictSet_self {α : Type} (l : List (String × α)) (k : String) (v : α) :
    (dictSet l k v).lookup k = some v := by
  unfold dictSet
  by_cases h : (l.lookup k).isSome
  · simp only [h, if_true]
    exact lookup_map_replace_self k v l h
  · simp only [h, if_false]
    apply lookup_append_single_self
    cases hl : l.lookup k with
    | none => rfl
    | some w => rw [hl] at h; simp at h

theorem lookup_dictSet_ne {α : Type} (l : List (String × α)) (k k' : String) (v : α)
    (hne : k' ≠ k) : (dictSet l k v).lookup k' = l.lookup k' := by
  unfold dictSet
  by_cases h : (l.lookup k).isSome
  · simp only [h, if_true]
    exact lookup_map_replace_ne k k' v hne l
  · simp only [h, if_false]
    exact lookup_append_single_ne k k' v hne l

theorem splitOnChar_ne_nil (c : Char) (l : List Char) : splitOnChar c l ≠ [] := by
  cases l with
  | nil => simp [splitOnChar]
  | cons x xs =>
    simp only [splitOnChar]
    cases h : splitOnChar c xs with
    | nil => simp
    | cons r rs =>
      by_cases hx : x = c <;> simp [hx]

theorem splitOnChar_append (c : Char) (xs ys : List Char) :
    splitOnChar c (xs ++ c :: ys) = splitOnChar c xs ++ splitOnChar c ys := by
  induction xs with
  | nil =>
    cases h : splitOnChar c ys with
    | nil => exact absurd h (splitOnChar_ne_nil c ys)
    | cons r rs => simp [splitOnChar, h]
  | cons x xs ih =>
    cases hx : splitOnChar c xs with
    | nil => exact absurd hx (splitOnChar_ne_nil c xs)
    | cons p ps =>
      cases hy : splitOnChar c ys with
      | nil => exact absurd hy (splitOnChar_ne_nil c ys)
      | cons q qs =>
        by_cases hxc : x = c <;>
          simp [splitOnChar, ih, hx, hy, hxc]

theorem splitOnChar_of_not_mem (c : Char) (l : List Char) (h : c ∉ l) :
    splitOnChar c l = [l] := by
  induction l with
  | nil => simp [splitOnChar]
  | cons x xs ih =>
    have hx : x ≠ c := fun he => h (by simp [he])
    have hxs : c ∉ xs := fun hm => h (by simp [hm])
    simp [splitOnChar, ih hxs, hx]

/-- C7: for every plugin name, the type classifier fails with an error when
the name contains both `tap-` and `target-`, returns `extractors` when it
contains `tap-` without `target-`, returns `loaders` for the converse, and
yields no classification when neither marker occurs. -/
theorem get_plugin_type_spec (plugin_name : String) :
    (strIn "tap-".data plugin_name.data = true →
      strIn "target-".data plugin_name.data = true →
      ∃ msg, get_plugin_type plugin_name = Except.error msg) ∧
    (strIn "tap-".data plugin_name.data = true →
      strIn "target-".data plugin_name.data = false →
      get_plugin_type plugin_name = Except.ok (some "extractors")) ∧
    (strIn "tap-".data plugin_name.data = false →
      strIn "target-".data plugin_name.data = true →
      get_plugin_type plugin_name = Except.ok (some "loaders")) ∧
    (strIn "tap-".data plugin_name.data = false →
      strIn "target-".data plugin_name.data = false →
      get_plugin_type plugin_name = Except.ok none) := by
  unfold get_plugin_type
  refine ⟨?_, ?_, ?_, ?_⟩ <;> intro h1 h2 <;> simp [h1, h2]

/-- Witness for C7 at four concrete plugin names, one per branch. -/
theorem get_plugin_type_spec_witness :
    (∃ msg, get_plugin_type "tap-target-x" = Except.error msg) ∧
    get_plugin_type "tap-postgres" = Except.ok (some "extractors") ∧
    get_plugin_type "target-postgres" = Except.ok (some "loaders") ∧
    get_plugin_type "meltano-map" = Except.ok none :=
  ⟨(get_plugin_type_spec "tap-target-x").1 (by decide) (by decide),
    (get_plugin_type_spec "tap-postgres").2.1 (by decide) (by decide),
    (get_plugin_type_spec "target-postgres").2.2.1 (by decide) (by decide),
    (get_plugin_type_spec "meltano-map").2.2.2 (by decide) (by decide)⟩

/-- C9: for every repository URL of the form `.../{owner}/{name}` (where the
final two path segments contain no slash), the derived plugin name is the
last segment and the derived variant is the lowercased second-to-last
segment. -/
theorem plugin_name_variant_from_url (pre owner nm : List Char)
    (howner : '/' ∉ owner) (hnm : '/' ∉ nm) :
    _get_plugin_name (String.mk (pre ++ '/' :: (owner ++ '/' :: nm))) =
      String.mk nm ∧
    _get_plugin_variant (String.mk (pre ++ '/' :: (owner ++ '/' :: nm))) =
      some (String.mk (owner.map Char.toLower)) := by
  have hsplit : splitOnChar '/' (pre ++ '/' :: (owner ++ '/' :: nm)) =
      splitOnChar '/' pre ++ [owner, nm] := by
    rw [splitOnChar_append, splitOnChar_append,
      splitOnChar_of_not_mem '/' owner howner,
      splitOnChar_of_not_mem '/' nm hnm]
    rfl
  constructor
  · unfold _get_plugin_name
    have hdata : (String.mk (pre ++ '/' :: (owner ++ '/' :: nm))).data =
        pre ++ '/' :: (owner ++ '/' :: nm) := rfl
    rw [hdata, hsplit]
    have : splitOnChar '/' pre ++ [owner, nm] =
        (splitOnChar '/' pre ++ [owner]) ++ [nm] := by simp
    rw [this, List.getLastD_concat]
  · unfold _get_plugin_variant
    have hdata : (String.mk (pre ++ '/' :: (owner ++ '/' :: nm))).data =
        pre ++ '/' :: (owner ++ '/' :: nm) := rfl
    rw [hdata, hsplit]
    have : splitOnChar '/' pre ++ [owner, nm] =
        (splitOnChar '/' pre ++ [owner]) ++ [nm] := by simp
    rw [this, List.reverse_append]
    simp

/-- Witness for C9 at a concrete GitHub URL. -/
theorem plugin_name_variant_from_url_witness :
    _get_plugin_name "https://github.com/MeltanoLabs/tap-foo" = "tap-foo" ∧
    _get_plugin_variant "https://github.com/MeltanoLabs/tap-foo" =
      some "meltanolabs" := by
  have h := plugin_name_variant_from_url "https://github.com".data
    "MeltanoLabs".data "tap-foo".data (by decide) (by decide)
  have hurl : String.mk ("https://github.com".data ++
      '/' :: ("MeltanoLabs".data ++ '/' :: "tap-foo".data)) =
      "https://github.com/MeltanoLabs/tap-foo" := by decide
  rw [hurl] at h
  have h1 : String.mk "tap-foo".data = "tap-foo" := rfl
  have h2 : String.mk ("MeltanoLabs".data.map Char.toLower) = "meltanolabs" := by
    decide
  rw [h1, h2] at h
  exact h

/-- C2: the update merge overlays exactly settings, keywords,
maintenance_status, capabilities and settings_group_validation onto the
existing definition, and every other field of the result equals the
corresponding field of the existing definition. -/
theorem merge_definitions_spec (existing_def : PluginDef)
    (settings : List SettingRecord) (keywords : List String) (m_status : String)
    (caps : List String) (sgv : List (List String)) :
    (_merge_definitions existing_def settings keywords m_status caps sgv).settings
        = settings ∧
    (_merge_definitions existing_def settings keywords m_status caps sgv).keywords
        = keywords ∧
    (_merge_definitions existing_def settings keywords m_status caps sgv).maintenance_status
        = m_status ∧
    (_merge_definitions existing_def settings keywords m_status caps sgv).capabilities
        = caps ∧
    (_merge_definitions existing_def settings keywords m_status caps sgv).settings_group_validation
        = sgv ∧
    (_merge_definitions existing_def settings keywords m_status caps sgv).name
        = existing_def.name ∧
    (_merge_definitions existing_def settings keywords m_status caps sgv).variant
        = existing_def.variant ∧
    (_merge_definitions existing_def settings keywords m_status caps sgv).label
        = existing_def.label ∧
    (_merge_definitions existing_def settings keywords m_status caps sgv).logo_url
        = existing_def.logo_url ∧
    (_merge_definitions existing_def settings keywords m_status caps sgv).description
        = existing_def.description ∧
    (_merge_definitions existing_def settings keywords m_status caps sgv).domain_url
        = existing_def.domain_url ∧
    (_merge_definitions existing_def settings keywords m_status caps sgv).«namespace»
        = existing_def.«namespace» ∧
    (_merge_definitions existing_def settings keywords m_status caps sgv).next_steps
        = existing_def.next_steps ∧
    (_merge_definitions existing_def settings keywords m_status caps sgv).pip_url
        = existing_def.pip_url ∧
    (_merge_definitions existing_def settings keywords m_status caps sgv).repo
        = existing_def.repo ∧
    (_merge_definitions existing_def settings keywords m_status caps sgv).settings_preamble
        = existing_def.settings_preamble ∧
    (_merge_definitions existing_def settings keywords m_status caps sgv).usage
        = existing_def.usage ∧
    (_merge_definitions existing_def settings keywords m_status caps sgv).executable
        = existing_def.executable :=
  ⟨rfl, rfl, rfl, rfl, rfl, rfl, rfl, rfl, rfl, rfl, rfl, rfl, rfl, rfl, rfl,
    rfl, rfl, rfl⟩

/-- C1: writing a definition when no file exists at the target
(type, name, variant) path creates it and reports the created branch without
touching any other path; when a file exists, a declined overwrite answer
leaves the whole store unchanged and reports the skipped branch, auto-accept
mode always declines (the recorded default answer is `False`), and the stored
file changes only when the file was absent or the operator explicitly
answered `True`. -/
theorem write_definition_spec (files : DefStore) (definition : PluginDef)
    (plugin_type : String) (auto_accept overwriteInput : Bool) :
    (files (plugin_type, definition.name, definition.variant) = none →
      (_write_definition files definition plugin_type auto_accept overwriteInput).2
          = DefReport.created ∧
      (_write_definition files definition plugin_type auto_accept overwriteInput).1
          (plugin_type, definition.name, definition.variant) = some definition ∧
      ∀ k, k ≠ (plugin_type, definition.name, definition.variant) →
        (_write_definition files definition plugin_type auto_accept overwriteInput).1 k
          = files k) ∧
    (∀ c, files (plugin_type, definition.name, definition.variant) = some c →
      (promptBool auto_accept false overwriteInput = false →
        (_write_definition files definition plugin_type auto_accept overwriteInput).1
            = files ∧
        (_write_definition files definition plugin_type auto_accept overwriteInput).2
            = DefReport.skipped) ∧
      (auto_accept = true →
        (_write_definition files definition plugin_type auto_accept overwriteInput).1
            = files ∧
        (_write_definition files definition plugin_type auto_accept overwriteInput).2
            = DefReport.skipped) ∧
      (promptBool auto_accept false overwriteInput = true →
        (_write_definition files definition plugin_type auto_accept overwriteInput).2
            = DefReport.overwritten)) := by
  constructor
  · intro habs
    have h2 : _write_definition files definition plugin_type auto_accept overwriteInput =
        (fun k => if k = (plugin_type, definition.name, definition.variant)
          then some definition else files k, DefReport.created) := by
      simp only [_write_definition, habs]
    refine ⟨by rw [h2], ?_, ?_⟩
    · rw [h2]
      simp
    · intro k hk
      rw [h2]
      simp [hk]
  · intro c hsome
    have h2 : _write_definition files definition plugin_type auto_accept overwriteInput =
        (if promptBool auto_accept false overwriteInput then
          (fun k => if k = (plugin_type, definition.name, definition.variant)
            then some definition else files k, DefReport.overwritten)
        else (files, DefReport.skipped)) := by
      simp only [_write_definition, hsome]
    refine ⟨?_, ?_, ?_⟩
    · intro hdecl
      rw [h2, hdecl]
      exact ⟨rfl, rfl⟩
    · intro hauto
      have hd : promptBool auto_accept false overwriteInput = false := by
        simp [promptBool, hauto]
      rw [h2, hd]
      exact ⟨rfl, rfl⟩
    · intro hconf
      rw [h2, hconf]
      rfl

/-- Witness for C1: a store with no file for the sample definition reports created;
a store that already holds it reports skipped on decline and is unchanged. -/
theorem write_definition_spec_witness :
    (_write_definition (fun _ => none) sampleDef "extractors" false false).2
        = DefReport.created ∧
    (_write_definition
      (fun k => if k = ("extractors", "tap-foo", "meltanolabs")
        then some sampleDef else none)
      sampleDef "extractors" false false).1
        = (fun k => if k = ("extractors", "tap-foo", "meltanolabs")
            then some sampleDef else none) ∧
    (_write_definition
      (fun k => if k = ("extractors", "tap-foo", "meltanolabs")
        then some sampleDef else none)
      sampleDef "extractors" false false).2 = DefReport.skipped := by
  refine ⟨?_, ?_, ?_⟩
  · exact ((write_definition_spec (fun _ => none) sampleDef "extractors"
      false false).1 rfl).1
  · exact (((write_definition_spec _ sampleDef "extractors" false false).2
      sampleDef rfl).1 rfl).1
  · exact (((write_definition_spec _ sampleDef "extractors" false false).2
      sampleDef rfl).1 rfl).2

theorem lookup2_update_variant_file (ptd : List (String × String)) (nm v : String)
    (defaults : List (String × List (String × String))) (ty : String) :
    lookup2 (_update_variant_file ptd nm v defaults ty) ty nm = some v := by
  unfold lookup2 _update_variant_file
  rw [lookup_dictSet_self]
  simp [lookup_dictSet_self]

/-- C3: when the variant key is absent from the maintainers registry, a
record with label and name equal to the variant and url equal to the
repository URL minus its last path segment is added and the registry is
rewritten with keys in sorted order (same entries, sorted); when the key is
already present the operation returns the registry unchanged, so the existing
label, url and name are never mutated, whatever URL is supplied. -/
theorem handle_maintainer_spec (maintainers : List (String × Maintainer))
    (plugin_variant repo_url : String) :
    (maintainers.lookup plugin_variant = none →
      (plugin_variant,
        ({ label := plugin_variant
           url := stripLastSegment repo_url
           name := plugin_variant } : Maintainer)) ∈
        _handle_maintainer maintainers plugin_variant repo_url ∧
      (_handle_maintainer maintainers plugin_variant repo_url).Perm
        (maintainers ++ [(plugin_variant,
          { label := plugin_variant
            url := stripLastSegment repo_url
            name := plugin_variant })]) ∧
      List.Sorted maintainerLe
        (_handle_maintainer maintainers plugin_variant repo_url)) ∧
    (∀ r, maintainers.lookup plugin_variant = some r →
      _handle_maintainer maintainers plugin_variant repo_url = maintainers) := by
  constructor
  · intro habs
    have hfalse : (maintainers.lookup plugin_variant).isSome = false := by
      rw [habs]
      rfl
    have hres : _handle_maintainer maintainers plugin_variant repo_url =
        List.insertionSort maintainerLe
          (maintainers ++ [(plugin_variant,
            { label := plugin_variant
              url := stripLastSegment repo_url
              name := plugin_variant })]) := by
      simp [_handle_maintainer, dictSet, hfalse]
    have hperm := List.perm_insertionSort maintainerLe
      (maintainers ++ [(plugin_variant,
        ({ label := plugin_variant
           url := stripLastSegment repo_url
           name := plugin_variant } : Maintainer))])
    refine ⟨?_, ?_, ?_⟩
    · rw [hres]
      exact hperm.mem_iff.mpr (by simp)
    · rw [hres]
      exact hperm
    · rw [hres]
      exact List.sorted_insertionSort maintainerLe _
  · intro r hr
    have htrue : (maintainers.lookup plugin_variant).isSome = true := by
      rw [hr]
      rfl
    simp [_handle_maintainer, htrue]

/-- Witness for C3: adding a fresh variant key to a one-entry registry, and a
second call for an existing key with a different URL that changes nothing. -/
theorem handle_maintainer_spec_witness :
    ("meltanolabs",
      ({ label := "meltanolabs"
         url := stripLastSegment "https://github.com/MeltanoLabs/tap-foo"
         name := "meltanolabs" } : Maintainer)) ∈
      _handle_maintainer [("zzz", ⟨"zzz", "u", "zzz"⟩)] "meltanolabs"
        "https://github.com/MeltanoLabs/tap-foo" ∧
    _handle_maintainer [("meltanolabs", ⟨"m", "u", "m"⟩)] "meltanolabs"
        "https://other/x/y" = [("meltanolabs", ⟨"m", "u", "m"⟩)] := by
  constructor
  · exact ((handle_maintainer_spec [("zzz", ⟨"zzz", "u", "zzz"⟩)] "meltanolabs"
      "https://github.com/MeltanoLabs/tap-foo").1 (by decide)).1
  · exact (handle_maintainer_spec [("meltanolabs", ⟨"m", "u", "m"⟩)]
      "meltanolabs" "https://other/x/y").2 ⟨"m", "u", "m"⟩ (by decide)

/-- C4: given that the plugin type key exists in the default-variants
registry, the operation always succeeds; its returned flag is truthy exactly
when a default already existed; when no default existed the new variant is
recorded unconditionally; when one existed the registry is unchanged on the
declined prompt (whose recorded default is decline, hence also in auto-accept
mode) and updated only on an explicit confirmation. -/
theorem handle_default_variant_spec
    (defaults : List (String × List (String × String)))
    (plugin_name plugin_variant plugin_type : String)
    (auto_accept overwriteInput : Bool)
    (plugin_type_defaults : List (String × String))
    (hty : defaults.lookup plugin_type = some plugin_type_defaults) :
    ∃ reg ret,
      _handle_default_variant defaults plugin_name plugin_variant plugin_type
          auto_accept overwriteInput = some (reg, ret) ∧
      truthy ret = (plugin_type_defaults.lookup plugin_name).isSome ∧
      (plugin_type_defaults.lookup plugin_name = none →
        lookup2 reg plugin_type plugin_name = some plugin_variant) ∧
      (∀ cur, plugin_type_defaults.lookup plugin_name = some cur →
        (promptBool auto_accept false overwriteInput = false → reg = defaults) ∧
        (auto_accept = true → reg = defaults) ∧
        (promptBool auto_accept false overwriteInput = true →
          lookup2 reg plugin_type plugin_name = some plugin_variant)) := by
  by_cases hnm : (plugin_type_defaults.lookup plugin_name).isSome = true
  · by_cases hov : promptBool auto_accept false overwriteInput = true
    · have hres : _handle_default_variant defaults plugin_name plugin_variant
          plugin_type auto_accept overwriteInput =
          some (_update_variant_file plugin_type_defaults plugin_name
            plugin_variant defaults plugin_type, some true) := by
        simp [_handle_default_variant, hty, hnm, hov]
      refine ⟨_, some true, hres, ?_, ?_, ?_⟩
      · rw [hnm]
        rfl
      · intro h
        rw [h] at hnm
        simp at hnm
      · intro cur _
        refine ⟨?_, ?_, ?_⟩
        · intro hd
          rw [hd] at hov
          simp at hov
        · intro hauto
          simp [promptBool, hauto] at hov
        · intro _
          exact lookup2_update_variant_file plugin_type_defaults plugin_name
            plugin_variant defaults plugin_type
    · have hov2 : promptBool auto_accept false overwriteInput = false := by
        cases h : promptBool auto_accept false overwriteInput with
        | false => rfl
        | true => exact absurd h hov
      have hres : _handle_default_variant defaults plugin_name plugin_variant
          plugin_type auto_accept overwriteInput = some (defaults, some true) := by
        simp [_handle_default_variant, hty, hnm, hov2]
      refine ⟨_, some true, hres, ?_, ?_, ?_⟩
      · rw [hnm]
        rfl
      · intro h
        rw [h] at hnm
        simp at hnm
      · intro cur _
        exact ⟨fun _ => rfl, fun _ => rfl, fun hc => absurd hc hov⟩
  · have hnone : plugin_type_defaults.lookup plugin_name = none := by
      cases h : plugin_type_defaults.lookup plugin_name with
      | none => rfl
      | some c => rw [h] at hnm; simp at hnm
    have hfalse : (plugin_type_defaults.lookup plugin_name).isSome = false := by
      rw [hnone]
      rfl
    have hres : _handle_default_variant defaults plugin_name plugin_variant
        plugin_type auto_accept overwriteInput =
        some (_update_variant_file plugin_type_defaults plugin_name
          plugin_variant defaults plugin_type, none) := by
      simp [_handle_default_variant, hty, hfalse]
    refine ⟨_, none, hres, ?_, ?_, ?_⟩
    · rw [hfalse]
      rfl
    · intro _
      exact lookup2_update_variant_file plugin_type_defaults plugin_name
        plugin_variant defaults plugin_type
    · intro cur hcur
      rw [hcur] at hnone
      exact absurd hnone (by simp)

/-- Witness for C4: a fresh (type, name) records the variant unconditionally
with a falsy return; an existing default with overwrite declined leaves the
registry unchanged and returns truthy. -/
theorem handle_default_variant_spec_witness :
    (∃ reg ret,
      _handle_default_variant [("extractors", ([] : List (String × String)))]
          "tap-foo" "meltanolabs" "extractors" false false = some (reg, ret) ∧
      truthy ret = false ∧
      lookup2 reg "extractors" "tap-foo" = some "meltanolabs") ∧
    (∃ reg ret,
      _handle_default_variant [("extractors", [("tap-foo", "other")])]
          "tap-foo" "meltanolabs" "extractors" false false = some (reg, ret) ∧
      truthy ret = true ∧
      reg = [("extractors", [("tap-foo", "other")])]) := by
  constructor
  · obtain ⟨reg, ret, h1, h2, h3, _⟩ := handle_default_variant_spec
      [("extractors", [])] "tap-foo" "meltanolabs" "extractors" false false
      [] (by decide)
    exact ⟨reg, ret, h1, by rw [h2]; rfl, h3 (by decide)⟩
  · obtain ⟨reg, ret, h1, h2, _, h4⟩ := handle_default_variant_spec
      [("extractors", [("tap-foo", "other")])] "tap-foo" "meltanolabs"
      "extractors" false false [("tap-foo", "other")] (by decide)
    exact ⟨reg, ret, h1, by rw [h2]; rfl, (h4 "other" (by decide)).1 rfl⟩

theorem buildSettingsList_snd (resp : String → SettingInput) (l : List String) :
    (buildSettingsList resp l).2 = l.filter (fun s => (resp s).required) := by
  induction l with
  | nil => rfl
  | cons s rest ih =>
    simp only [buildSettingsList, List.filter]
    cases h : (resp s).required <;> simp [h, ih]

theorem buildSettingsList_fst_mem (resp : String → SettingInput) (l : List String) :
    ∀ r ∈ (buildSettingsList resp l).1, ∃ s ∈ l,
      r = { name := s
            label := (resp s).label
            description := (resp s).description
            kind := if (resp s).kind ≠ "string" then some (resp s).kind else none } := by
  induction l with
  | nil => intro r hr; simp [buildSettingsList] at hr
  | cons s rest ih =>
    intro r hr
    simp only [buildSettingsList, List.mem_cons] at hr
    rcases hr with hr | hr
    · exact ⟨s, by simp, hr⟩
    · obtain ⟨s2, hs2, heq⟩ := ih r hr
      exact ⟨s2, by simp [hs2], heq⟩

/-- C6: the settings builder returns a single validation group holding
exactly the setting names confirmed required, and each produced record
carries the `kind` key exactly when the confirmed kind differs from
`string` (in which case it carries that kind). -/
theorem build_settings_spec (resp : String → SettingInput)
    (setting_list : List String) :
    ∃ group, (_build_settings resp setting_list).2 = [group] ∧
      (∀ s, s ∈ group ↔ (s ∈ setting_list ∧ (resp s).required = true)) ∧
      (∀ r, r ∈ (_build_settings resp setting_list).1 →
        r.kind = if (resp r.name).kind = "string" then none
          else some (resp r.name).kind) := by
  refine ⟨(buildSettingsList resp setting_list).2, rfl, ?_, ?_⟩
  · intro s
    rw [buildSettingsList_snd]
    simp [List.mem_filter]
  · intro r hr
    obtain ⟨s, _, heq⟩ := buildSettingsList_fst_mem resp setting_list r hr
    subst heq
    by_cases hk : (resp s).kind = "string" <;> simp [hk]

/-- Witness for C6 on a two-setting list: the single group holds exactly the
required name. -/
theorem build_settings_spec_witness :
    ∃ g, (_build_settings sampleResp ["host", "port"]).2 = [g] ∧
      "host" ∈ g ∧ ¬ "port" ∈ g := by
  obtain ⟨g, hg, hmem, _⟩ := build_settings_spec sampleResp ["host", "port"]
  refine ⟨g, hg, (hmem "host").mpr ⟨by decide, by decide⟩,
    fun hp => absurd ((hmem "port").mp hp).2 (by decide)⟩

theorem bulkAux_confirms (csvList : List (List String)) :
    ∀ (rows : List (List String)) (toDelete : List String)
      (confirms : List Bool),
      bulkAux csvList toDelete rows confirms = bulkAux csvList toDelete rows [] := by
  intro rows
  induction rows with
  | nil => intro _ _; rfl
  | cons row rest ih =>
    intro toDelete confirms
    simp only [bulkAux]
    rw [ih (toDelete ++ [row.headD ""]) (confirms.drop 1)]
    rfl

theorem bulkAux_getElem (csvList : List (List String)) :
    ∀ (rows : List (List String)) (toDelete : List String)
      (confirms : List Bool) (i : Nat), i < rows.length →
      (bulkAux csvList toDelete rows confirms)[i]? =
        some (delete_rows
          (toDelete ++ (rows.take (i + 1)).map (fun r => r.headD "")) csvList) := by
  intro rows
  induction rows with
  | nil => intro _ _ i hi; simp at hi
  | cons row rest ih =>
    intro toDelete confirms i hi
    cases i with
    | zero => simp [bulkAux]
    | succ n =>
      have hn : n < rest.length := by simpa using hi
      simp only [bulkAux, List.getElem?_cons_succ]
      rw [ih (toDelete ++ [row.headD ""]) (confirms.drop 1) n hn]
      simp [List.take_succ_cons]

/-- C5: in the bulk driver, after visiting data row `i` (regardless of the
operator's per-row confirmation answers: the trace never depends on them)
the edit file is exactly the header followed by the data rows whose URL has
not been visited yet, provided the header cell is not itself one of the
visited URLs. -/
theorem add_bulk_spec (header : List String) (dataRows : List (List String))
    (confirms : List Bool) (i : Nat) (hi : i < dataRows.length)
    (hheader : ¬ header.headD "" ∈
      (dataRows.take (i + 1)).map (fun r => r.headD "")) :
    (add_bulk (header :: dataRows) confirms)[i]? =
      some (header :: dataRows.filter
        (fun r => !(decide (r.headD "" ∈
          (dataRows.take (i + 1)).map (fun r2 => r2.headD ""))))) ∧
    add_bulk (header :: dataRows) confirms = add_bulk (header :: dataRows) [] := by
  constructor
  · unfold add_bulk
    have hd : (header :: dataRows).drop 1 = dataRows := rfl
    rw [hd, bulkAux_getElem (header :: dataRows) dataRows [] confirms i hi]
    unfold delete_rows
    simp only [List.nil_append]
    rw [List.filter_cons]
    have hh : (!decide (header.headD "" ∈
        (dataRows.take (i + 1)).map (fun r => r.headD ""))) = true := by
      simpa using hheader
    rw [hh]
    simp
  · unfold add_bulk
    exact bulkAux_confirms _ _ _ _

/-- Witness for C5 on a three-row CSV (header plus two data rows): after the
first data row is visited (and confirmed), its URL is gone from the edit
file while the header and the unvisited row remain. -/
theorem add_bulk_spec_witness :
    (add_bulk [["repo_url", "c"], ["https://x/a/r1", "d"], ["https://x/b/r2", "e"]]
      [true, false])[0]? =
      some [["repo_url", "c"], ["https://x/b/r2", "e"]] := by
  have h := (add_bulk_spec ["repo_url", "c"]
    [["https://x/a/r1", "d"], ["https://x/b/r2", "e"]] [true, false] 0
    (by decide) (by decide)).1
  rw [h]
  decide

theorem compileSettingsLoop_result :
    ∀ (inputs : List (Option String)) (settings r s2 : List String),
      compileSettingsLoop settings inputs = some (r, s2) →
      r = s2.dedup ∧ settings <+: s2 := by
  intro inputs
  induction inputs with
  | nil => intro settings r s2 h; simp [compileSettingsLoop] at h
  | cons inp rest ih =>
    intro settings r s2 h
    cases inp with
    | none =>
      by_cases he : settings.isEmpty
      · exact ih settings r s2 (by simpa [compileSettingsLoop, he] using h)
      · have he2 : settings.isEmpty = false := by
          cases h2 : settings.isEmpty
          · rfl
          · exact absurd h2 he
        simp [compileSettingsLoop, he2] at h
        obtain ⟨hr, hs⟩ := h
        subst hs
        exact ⟨hr.symm, List.prefix_refl _⟩
    | some s =>
      by_cases heq : s = pyStrList settings
      · simp [compileSettingsLoop, heq] at h
        obtain ⟨hr, hs⟩ := h
        subst hs
        exact ⟨hr.symm, List.prefix_refl _⟩
      · have h' := ih (settings ++ [s]) r s2
          (by simpa [compileSettingsLoop, heq] using h)
        exact ⟨h'.1, (List.prefix_append settings [s]).trans h'.2⟩

theorem compileSettingsLoop_run :
    ∀ (typed seed : List String),
      (∀ i, i < typed.length →
        typed.getD i "" ≠ pyStrList (seed ++ typed.take i)) →
      seed ++ typed ≠ [] →
      compileSettingsLoop seed (typed.map some ++ [none]) =
        some ((seed ++ typed).dedup, seed ++ typed) := by
  intro typed
  induction typed with
  | nil =>
    intro seed _ hne
    have hse : seed.isEmpty = false := by
      cases seed
      · simp at hne
      · rfl
    simp [compileSettingsLoop, hse]
  | cons t ts ih =>
    intro seed h hne
    have h0 : t ≠ pyStrList seed := by
      have := h 0 (by simp)
      simpa using this
    have hsh : ∀ i, i < ts.length →
        ts.getD i "" ≠ pyStrList ((seed ++ [t]) ++ ts.take i) := by
      intro i hi
      have := h (i + 1) (by simpa using hi)
      simpa [List.take_succ_cons, List.append_assoc] using this
    have hne2 : (seed ++ [t]) ++ ts ≠ [] := by simp
    have hstep : compileSettingsLoop seed ((t :: ts).map some ++ [none]) =
        if t = pyStrList seed then some (seed.dedup, seed)
        else compileSettingsLoop (seed ++ [t]) (ts.map some ++ [none]) := rfl
    rw [hstep, if_neg h0, ih (seed ++ [t]) hsh hne2]
    simp [List.append_assoc]

/-- C8 counterexample: the claim says the loop stops as soon as an input
equals its immediate predecessor and returns only the names submitted before
the repetition.  With inputs "a", "a", "b", empty-line, the second "a"
repeats its predecessor, yet the loop keeps going and the later "b" is part
of the returned settings list. -/
theorem compile_settings_counterexample :
    "b" ∈ ((_compile_settings false []
      [some "a", some "a", some "b", none]).map Prod.fst).getD [] := by
  decide

/-- C8 (amended): the loop stops not on a repeated value but at the first
prompt answer whose Python string form equals `str` of the accumulated
settings list — in practice an empty line accepting the displayed default
once at least one name is present; the names typed before that point,
appended to the seed, are returned de-duplicated (their set of members is
exactly the set of submitted names plus the seed). -/
theorem compile_settings_spec (seed typed : List String)
    (h : ∀ i, i < typed.length →
      typed.getD i "" ≠ pyStrList (seed ++ typed.take i))
    (hne : seed ++ typed ≠ []) :
    _compile_settings false seed (typed.map some ++ [none]) =
      some ((seed ++ typed).dedup, seed ++ typed) ∧
    ∀ x, x ∈ (seed ++ typed).dedup ↔ x ∈ seed ++ typed := by
  refine ⟨?_, fun x => List.mem_dedup⟩
  show compileSettingsLoop seed (typed.map some ++ [none]) = _
  exact compileSettingsLoop_run typed seed h hne

/-- Witness for C8: typing "a" then "b" then an empty line returns both
names. -/
theorem compile_settings_spec_witness :
    _compile_settings false [] (["a", "b"].map some ++ [none]) =
      some (["a", "b"], ["a", "b"]) := by
  have h := (compile_settings_spec [] ["a", "b"] ?h1 ?h2).1
  case h1 =>
    intro i hi
    have hi2 : i < 2 := by simpa using hi
    interval_cases i <;> decide
  case h2 => decide
  rw [h]
  decide

/-- C10: `_compile_settings`'s `seed=[]` default is one shared list object
mutated in place by `settings.append`, so the contents of that object after
one call (`s1`) are the starting contents of the next call that omits the
seed; every name in the shared object after the first call — in particular
every name appended during it — is contained in the second call's result,
which therefore is not a function of the second call's prompt inputs alone. -/
theorem compile_settings_shared_seed (inputs1 inputs2 : List (Option String))
    (r1 s1 r2 s2 : List String)
    (h1 : _compile_settings false [] inputs1 = some (r1, s1))
    (h2 : _compile_settings false s1 inputs2 = some (r2, s2)) :
    (∀ x, x ∈ s1 → x ∈ r1) ∧ (∀ x, x ∈ s1 → x ∈ r2) := by
  have g1 := compileSettingsLoop_result inputs1 [] r1 s1 h1
  have g2 := compileSettingsLoop_result inputs2 s1 r2 s2 h2
  constructor
  · intro x hx
    rw [g1.1]
    exact List.mem_dedup.mpr hx
  · intro x hx
    rw [g2.1]
    exact List.mem_dedup.mpr (g2.2.subset hx)

/-- Witness for C10: first call appends "a"; the second seed-omitting call
ends immediately by accepting the default, and "a" is in its result. -/
theorem compile_settings_shared_seed_witness :
    _compile_settings false [] [some "a", none] = some (["a"], ["a"]) ∧
    _compile_settings false ["a"] [none] = some (["a"], ["a"]) ∧
    "a" ∈ (["a"] : List String) := by
  refine ⟨by decide, by decide, ?_⟩
  exact (compile_settings_shared_seed [some "a", none] [none] ["a"] ["a"]
    ["a"] ["a"] (by decide) (by decide)).2 "a" (by decide)

end HubUtils

